/-
  Verification development for a text-classification training toolkit.

  The repository has four root-level entry points (adapter pretraining,
  full pretraining, fine-tuning, checkpoint evaluation) plus a legacy
  fine-tuning script with its own trainer (src/trainer.py).  This file
  gives a shallow embedding of the pieces of that code needed to settle
  the frozen claims: the legacy training loop and its validation routine,
  Python keyword-argument call semantics (for the two TypeError claims),
  the epoch-step computations of the two hydra workflows, the checkpoint
  evaluation loop with its step-suffix parsing, the coarse side-effect
  traces of the five entry points (tracking calls and torch.compile), and
  the argparse model-argument group.
-/
import Mathlib

namespace Masters

/-! ## Python keyword-call semantics

A Python function call made purely with keyword arguments raises
`TypeError` when a supplied keyword is not a parameter of the callee, or
when a parameter without a default value receives no argument.  We model
a callee by its parameter list and the sublist of parameters that have no
default. -/

/-- A Python callable's keyword interface: all parameter names, and the
names of parameters that have no default value. -/
structure PySignature where
  params : List String
  requiredParams : List String
deriving DecidableEq

/-- Whether a pure-keyword call with keyword set `call` against signature
`sig` is accepted (no unexpected keyword, no missing required one). -/
def kwCallOk (sig : PySignature) (call : List String) : Bool :=
  call.all (fun k => sig.params.contains k)
    && sig.requiredParams.all (fun k => call.contains k)

/-- Errors a modelled Python computation can raise. -/
inductive PyError
  | typeError
  | valueError
deriving DecidableEq

/-! ## Legacy trainer (src/trainer.py)

`default_loss_function(input, target)` wraps
`binary_cross_entropy_with_logits(input=input, target=target,
reduction="mean")`; its own signature takes exactly `input` and `target`,
both without defaults. -/

/-- Keyword signature of `default_loss_function` in src/trainer.py: it
accepts only `input` and `target`, both required. -/
def default_loss_function : PySignature :=
  { params := ["input", "target"], requiredParams := ["input", "target"] }

/-- Keyword signature of torch's `binary_cross_entropy_with_logits`,
a loss function a caller could pass for `loss_fn` instead of the default
(it does accept a `reduction` keyword). -/
def bceWithLogitsSignature : PySignature :=
  { params := ["input", "target", "weight", "size_average", "reduce",
               "reduction", "pos_weight"],
    requiredParams := ["input", "target"] }

/-- The keyword set with which the legacy train loop invokes `loss_fn`:
`loss_fn(input=output["logits"], target=batch["labels"],
reduction="mean")`. -/
def lossCallKeywords : List String := ["input", "target", "reduction"]

/-- Observable actions of one run of the legacy training loop. -/
inductive TrainEvent
  | backward
  | optStep
  | zeroGrad
  | gradClip
  | earlyStop
  | evalRun (step : Nat)
  | logLoss (step : Nat)
deriving DecidableEq

def TrainEvent.isBackward : TrainEvent → Bool
  | .backward => true
  | _ => false

def TrainEvent.isOptStep : TrainEvent → Bool
  | .optStep => true
  | _ => false

def TrainEvent.isZeroGrad : TrainEvent → Bool
  | .zeroGrad => true
  | _ => false

def TrainEvent.isGradClip : TrainEvent → Bool
  | .gradClip => true
  | _ => false

def TrainEvent.isEarlyStop : TrainEvent → Bool
  | .earlyStop => true
  | _ => false

/-- Outcome of running (part of) the legacy loop: final value of
`global_step`, the emitted events in order, and the error that aborted
the run, if any. -/
structure RunResult where
  globalStep : Nat
  events : List TrainEvent
  error : Option PyError
deriving DecidableEq

/-- Events of the body of one batch iteration of the legacy loop, given
the value `gs` that `global_step` holds after its increment at the top of
the body: backward pass, optimizer step, gradient clearing, then
evaluation when `gs % eval_steps == 0` and loss logging when
`gs % logging_steps == 0`. -/
def stepEvents (eval_steps logging_steps gs : Nat) : List TrainEvent :=
  [.backward, .optStep, .zeroGrad]
    ++ (if gs % eval_steps = 0 then [.evalRun gs] else [])
    ++ (if gs % logging_steps = 0 then [.logLoss gs] else [])

/-- The inner batch loop of legacy `train`, over a number of remaining
batches, threading `global_step`.  `lossOk` tells whether the loop's
keyword call to `loss_fn` is accepted; when it is not, the first batch
raises `TypeError` right after the `global_step` increment and before any
backward pass. -/
def runBatches (lossOk : Bool) (eval_steps logging_steps : Nat) :
    Nat → Nat → RunResult
  | gs, 0 => ⟨gs, [], none⟩
  | gs, n + 1 =>
    if lossOk then
      let r := runBatches lossOk eval_steps logging_steps (gs + 1) n
      ⟨r.globalStep, stepEvents eval_steps logging_steps (gs + 1) ++ r.events,
        r.error⟩
    else
      ⟨gs + 1, [], some .typeError⟩

/-- The outer epoch loop of legacy `train`: each epoch replays the
`nBatches` batches of the train dataloader, with `global_step` carried
across epochs.  An error in an epoch aborts the run. -/
def runEpochs (lossOk : Bool) (eval_steps logging_steps nBatches : Nat) :
    Nat → Nat → RunResult
  | gs, 0 => ⟨gs, [], none⟩
  | gs, e + 1 =>
    let r := runBatches lossOk eval_steps logging_steps gs nBatches
    match r.error with
    | some _ => r
    | none =>
      let r2 := runEpochs lossOk eval_steps logging_steps nBatches r.globalStep e
      ⟨r2.globalStep, r.events ++ r2.events, r2.error⟩

/-- Legacy `train` from src/trainer.py: `global_step` starts at 0, then
`epochs` passes over the `nBatches` training batches.  Per batch:
increment `global_step`, call `loss_fn(input=..., target=...,
reduction="mean")` (which raises `TypeError` unless `loss_fn` accepts
those keywords), `loss.backward()`, `optimizer.step()`,
`optimizer.zero_grad()`, then the two modulus-triggered actions.
`loss_fn` defaults to `default_loss_function`. -/
def train (epochs eval_steps logging_steps nBatches : Nat)
    (loss_fn : PySignature := default_loss_function) : RunResult :=
  runEpochs (kwCallOk loss_fn lossCallKeywords) eval_steps logging_steps
    nBatches 0 epochs

/-! ## Legacy validation routine (src/trainer.py, `validation`)

For every batch of the evaluation dataloader the routine runs the model,
takes `torch.argmax(output["logits"], )` — no `dim` argument, so torch
flattens the logits tensor and returns one scalar index — and then calls
`f1_metric.add()` with no arguments at all. -/

/-- Index-of-first-maximum search over the tail `xs`, where `i` is the
index of the head of `xs` in the full list and `(bi, bv)` is the best
index/value seen so far. -/
def argmaxFrom : List ℚ → Nat → Nat → ℚ → Nat
  | [], _, bi, _ => bi
  | x :: xs, i, bi, bv =>
    if bv < x then argmaxFrom xs (i + 1) i x else argmaxFrom xs (i + 1) bi bv

/-- `torch.argmax` on a one-dimensional tensor: index of the first
maximal element (0 on the empty list). -/
def argmaxList : List ℚ → Nat
  | [] => 0
  | x :: xs => argmaxFrom xs 1 0 x

/-- `torch.argmax(t)` with no `dim` argument: the tensor is flattened and
a single index into the flattened data is returned. -/
def torchArgmaxFlat (logits : List (List ℚ)) : Nat :=
  argmaxList logits.flatten

/-- The keyword set that the F1 accumulator's `add` method requires
(one prediction and one reference per call). -/
def f1AddRequiredInputs : List String := ["prediction", "reference"]

/-- Observable actions of the legacy `validation` routine. -/
inductive ValEvent
  | argmaxCall (dim : Option Nat) (result : Nat)
  | f1AddCall (suppliedKeywords : List String)
deriving DecidableEq

def ValEvent.isArgmaxCall : ValEvent → Bool
  | .argmaxCall _ _ => true
  | _ => false

def ValEvent.isF1AddCall : ValEvent → Bool
  | .f1AddCall _ => true
  | _ => false

/-- Legacy `validation` from src/trainer.py, with each evaluation batch
represented by the logits matrix the model produces on it: per batch it
performs one dimension-less argmax over the flattened logits and one
`f1_metric.add()` call carrying no keywords. -/
def validation (batchLogits : List (List (List ℚ))) : List ValEvent :=
  batchLogits.flatMap fun logits =>
    [.argmaxCall none (torchArgmaxFlat logits), .f1AddCall []]

/-! ## Legacy fine-tuning entry point (src/finetuning/run_finetuning.py)

Its `main` builds data, model and optimizer, then calls
`train(model=..., tokenizer=..., optimizer=..., train_dataloader=...,
eval_dataloader=..., epochs=..., eval_steps=...,
loss_logging_steps=args.logging_steps)`. -/

/-- Keyword signature of legacy `train` (src/trainer.py): `loss_fn` is
the only parameter with a default value. -/
def trainSignature : PySignature :=
  { params := ["model", "tokenizer", "optimizer", "train_dataloader",
               "eval_dataloader", "epochs", "eval_steps", "logging_steps",
               "loss_fn"],
    requiredParams := ["model", "tokenizer", "optimizer", "train_dataloader",
                       "eval_dataloader", "epochs", "eval_steps",
                       "logging_steps"] }

/-- The keyword set with which src/finetuning/run_finetuning.py invokes
`train` (note `loss_logging_steps`, not `logging_steps`). -/
def legacyTrainCallKeywords : List String :=
  ["model", "tokenizer", "optimizer", "train_dataloader", "eval_dataloader",
   "epochs", "eval_steps", "loss_logging_steps"]

/-- The training portion of the legacy entry point's `main`: the call to
`train` is checked against `train`'s keyword signature; Python raises
`TypeError` before the callee body runs when the keywords do not match,
so in that case no batch is consumed and `global_step` never leaves 0. -/
def legacy_finetuning_main (epochs eval_steps logging_steps nBatches : Nat) :
    RunResult :=
  if kwCallOk trainSignature legacyTrainCallKeywords then
    train epochs eval_steps logging_steps nBatches
  else
    ⟨0, [], some .typeError⟩

/-! ## Epoch-step computations of the hydra workflows

run_pretraining.py line 67:
`epoch_steps = ceil(len(train_dataset) / args.per_device_train_batch_size
/ args.gradient_accumulation_steps)`;
run_finetuning.py line 80:
`epoch_steps = len(train_dataset) // args.per_device_train_batch_size //
args.gradient_accumulation_steps`. -/

/-- `epoch_steps` of run_pretraining.py: `math.ceil` of the chained true
division of the dataset length by the batch size and the accumulation
steps. -/
def pretrainingEpochSteps (n batchSize gradAccum : Nat) : Nat :=
  ⌈(n : ℚ) / (batchSize : ℚ) / (gradAccum : ℚ)⌉₊

/-- `epoch_steps` of run_finetuning.py: chained Python floor division
`n // batchSize // gradAccum`. -/
def finetuningEpochSteps (n batchSize gradAccum : Nat) : Nat :=
  n / batchSize / gradAccum

/-! ## Checkpoint evaluation workflow (run_evaluation.py)

`main` extracts
`checkpoint_step = args.checkpoint.split("/")[-1].split("-")[-1]`
and then, for every `(dataset_name, dataset_path)` in
`zip(args.dataset_names, args.dataset_paths)`, evaluates the checkpoint
on the dataset and calls
`mlflow.log_metrics(metrics, step=int(checkpoint_step))`.
Strings are modelled as lists of characters. -/

/-- Python `str.split(sep)` for a one-character separator: splits on
every occurrence of `sep` and always returns at least one (possibly
empty) piece. -/
def pySplit (sep : Char) : List Char → List (List Char)
  | [] => [[]]
  | c :: cs =>
    let r := pySplit sep cs
    if c = sep then [] :: r
    else
      match r with
      | [] => [[c]]
      | g :: gs => (c :: g) :: gs

/-- Value of a decimal digit string (most significant digit first). -/
def digitsToNat (cs : List Char) : Nat :=
  cs.foldl (fun a c => 10 * a + (c.toNat - '0'.toNat)) 0

/-- Python `int(s)` on a string: an optional leading minus sign followed
by a nonempty run of decimal digits; anything else raises `ValueError`
(modelled as `none`). -/
def pyInt : List Char → Option Int
  | '-' :: rest =>
    if rest ≠ [] ∧ rest.all Char.isDigit then some (-(digitsToNat rest : Int))
    else none
  | cs =>
    if cs ≠ [] ∧ cs.all Char.isDigit then some ((digitsToNat cs : Int))
    else none

/-- Python `s.split(sep)[-1]`: the last piece of the split (the split
list is never empty, so `[-1]` is its `getLast`). -/
def lastPiece (sep : Char) (cs : List Char) : List Char :=
  (pySplit sep cs).getLastD []

/-- The `checkpoint_step` string of run_evaluation.py:
`checkpoint.split("/")[-1].split("-")[-1]`, i.e. the text after the last
`-` of the last `/`-separated segment of the checkpoint path. -/
def checkpointStepOf (checkpoint : List Char) : List Char :=
  lastPiece '-' (lastPiece '/' checkpoint)

/-- Observable actions of the per-dataset loop of run_evaluation.py. -/
inductive EvalEvent
  | evaluated (name path : List Char)
  | loggedMetrics (name : List Char) (step : Int)
deriving DecidableEq

/-- The pair evaluated by an `evaluated` event, if any. -/
def EvalEvent.evaluatedPair : EvalEvent → Option (List Char × List Char)
  | .evaluated name path => some (name, path)
  | _ => none

/-- The per-dataset loop of run_evaluation.py over the zipped
name/path pairs: each iteration loads and evaluates the checkpoint on
the dataset, then logs the metrics with `step=int(checkpoint_step)`;
an unparsable step string raises `ValueError` after the evaluation of
the current dataset and aborts the loop. -/
def evalLoop (stepStr : List Char) :
    List (List Char × List Char) → List EvalEvent × Option PyError
  | [] => ([], none)
  | (name, path) :: rest =>
    match pyInt stepStr with
    | some k =>
      let r := evalLoop stepStr rest
      (.evaluated name path :: .loggedMetrics name k :: r.1, r.2)
    | none => ([.evaluated name path], some .valueError)

/-- The dataset-evaluation portion of run_evaluation.py's `main`:
extract the checkpoint-step string, then run the loop over
`zip(dataset_names, dataset_paths)`. -/
def run_evaluation_main (checkpoint : List Char)
    (datasetNames datasetPaths : List (List Char)) :
    List EvalEvent × Option PyError :=
  evalLoop (checkpointStepOf checkpoint) (datasetNames.zip datasetPaths)

/-! ## Coarse side-effect traces of the five entry points

For the claims about tracking-service integration and `torch.compile`,
each entry point is modelled by the ordered list of the relevant external
calls its `main` issues.  The hydra entry points guard every mlflow call
by `hasattr(args, "mlflow")`; the adapter entry point guards them by the
truthiness of `args.mlflow_experiment`; run_evaluation.py calls
`mlflow.start_run`/`mlflow.end_run` unconditionally; the legacy script
makes no tracking calls and calls `torch.compile(model)` outside any
conditional. -/

/-- Calls an entry point can issue, at the granularity the claims need. -/
inductive WfEvent
  | loadModel
  | compileModel
  | moveToDevice
  | setTrackingUri
  | setExperiment
  | startRun
  | writeRunIdFile
  | logParams
  | logDict
  | setTags
  | logMetricsCall
  | trainRun
  | endRun
deriving DecidableEq

/-- Which of the coarse events are calls to the tracking service. -/
def WfEvent.isTrackingCall : WfEvent → Bool
  | .setTrackingUri => true
  | .setExperiment => true
  | .startRun => true
  | .logParams => true
  | .logDict => true
  | .setTags => true
  | .logMetricsCall => true
  | .endRun => true
  | _ => false

/-- run_finetuning.py (hydra): load model, compile iff
`args.use_torch_compile`, move to device; all mlflow calls iff
`hasattr(args, "mlflow")`; the run ends after `train` returns. -/
def runFinetuningWorkflow (useTorchCompile hasMlflowAttr : Bool) :
    List WfEvent :=
  [.loadModel]
    ++ (if useTorchCompile then [.compileModel] else [])
    ++ [.moveToDevice]
    ++ (if hasMlflowAttr then [.setTrackingUri, .setExperiment, .startRun,
                               .logDict] else [])
    ++ [.trainRun]
    ++ (if hasMlflowAttr then [.endRun] else [])

/-- run_pretraining.py (hydra): same shape as fine-tuning, except the
configured run logs flattened params and sets tags. -/
def runPretrainingWorkflow (useTorchCompile hasMlflowAttr : Bool) :
    List WfEvent :=
  [.loadModel]
    ++ (if useTorchCompile then [.compileModel] else [])
    ++ [.moveToDevice]
    ++ (if hasMlflowAttr then [.setTrackingUri, .setExperiment, .startRun,
                               .logParams, .setTags] else [])
    ++ [.trainRun]
    ++ (if hasMlflowAttr then [.endRun] else [])

/-- Truthiness of an optional Python string (`None` and `""` are falsy),
as used by `if args.mlflow_experiment:` in run_adapter_pretraining.py. -/
def pyTruthy : Option String → Bool
  | none => false
  | some s => !(s == "")

/-- run_adapter_pretraining.py: load model (with adapter attached),
compile iff `args.use_torch_compile`, move to device; mlflow calls iff
`args.mlflow_experiment` is truthy, in which case the run id is also
written to `mlflow_run_id.txt`. -/
def runAdapterPretrainingWorkflow (useTorchCompile : Bool)
    (mlflowExperiment : Option String) : List WfEvent :=
  [.loadModel]
    ++ (if useTorchCompile then [.compileModel] else [])
    ++ [.moveToDevice]
    ++ (if pyTruthy mlflowExperiment then
          [.setTrackingUri, .setExperiment, .startRun, .writeRunIdFile,
           .logParams] else [])
    ++ [.trainRun]
    ++ (if pyTruthy mlflowExperiment then [.endRun] else [])

/-- run_evaluation.py: `mlflow.set_tracking_uri` and `mlflow.start_run`
are called unconditionally before the dataset loop (the script has no
flag that disables tracking); per dataset the model is loaded, moved to
the device (never compiled — the `torch.compile` call was removed) and
the metrics are logged; `mlflow.end_run()` closes the run. -/
def runEvaluationWorkflow (datasets : List (List Char × List Char)) :
    List WfEvent :=
  [.setTrackingUri, .startRun]
    ++ datasets.flatMap (fun _ => [.loadModel, .moveToDevice, .logMetricsCall])
    ++ [.endRun]

/-- src/finetuning/run_finetuning.py (legacy): loads the model, then
calls `model = torch.compile(model)` unconditionally — its CLI has no
compile flag — and makes no tracking calls at all. -/
def runLegacyFinetuningWorkflow : List WfEvent :=
  [.loadModel, .compileModel, .trainRun]

/-! ## argparse model-argument group (src/cli/model.py)

`add_model_args` adds a single argument `--pretrained_model_name_or_path`
with `type=str` and a help text — and nothing else: no `required=True`
(argparse treats `--`-prefixed arguments as optional by default) and no
caching arguments. -/

/-- One registered command-line argument: its flag name and whether
argparse will reject a command line that omits it. -/
structure ArgumentSpec where
  name : String
  required : Bool
deriving DecidableEq

/-- The argument group registered by `add_model_args` in
src/cli/model.py: exactly one argument, `--pretrained_model_name_or_path`,
added without `required=True`. -/
def add_model_args : List ArgumentSpec :=
  [{ name := "--pretrained_model_name_or_path", required := false }]

/-- Whether argparse accepts a command line `argv` against the registered
arguments, as far as required-argument checking goes: every argument
marked required must occur in `argv`. -/
def parseSucceeds (specs : List ArgumentSpec) (argv : List String) : Bool :=
  specs.all (fun a => !a.required || argv.contains a.name)

/-! ## Lemmas about the legacy training loop -/

/-- The event trace of `n` successful batch iterations started with
`global_step = gs`. -/
def batchTrace (eval_steps logging_steps gs : Nat) : Nat → List TrainEvent
  | 0 => []
  | n + 1 =>
    stepEvents eval_steps logging_steps (gs + 1)
      ++ batchTrace eval_steps logging_steps (gs + 1) n

theorem runBatches_ok (es ls gs n : Nat) :
    runBatches true es ls gs n = ⟨gs + n, batchTrace es ls gs n, none⟩ := by
  induction n generalizing gs with
  | zero => simp [runBatches, batchTrace]
  | succ n ih =>
    simp only [runBatches, if_pos rfl, ih, batchTrace]
    have h : gs + 1 + n = gs + (n + 1) := by omega
    rw [h, if_pos trivial]

theorem batchTrace_add (es ls gs a b : Nat) :
    batchTrace es ls gs (a + b)
      = batchTrace es ls gs a ++ batchTrace es ls (gs + a) b := by
  induction a generalizing gs with
  | zero => simp [batchTrace]
  | succ a ih =>
    have : a + 1 + b = (a + b) + 1 := by omega
    simp only [batchTrace, Nat.succ_add, List.append_assoc]
    rw [ih]
    have : gs + 1 + a = gs + (a + 1) := by omega
    rw [this]

theorem runEpochs_ok (es ls n gs e : Nat) :
    runEpochs true es ls n gs e = ⟨gs + e * n, batchTrace es ls gs (e * n), none⟩ := by
  induction e generalizing gs with
  | zero => simp [runEpochs, batchTrace]
  | succ e ih =>
    simp only [runEpochs, runBatches_ok, ih]
    have h1 : gs + n + e * n = gs + (e + 1) * n := by ring
    have h2 : (e + 1) * n = n + e * n := by ring
    rw [h2, batchTrace_add, h1, h2]

theorem countP_stepEvents_isBackward (es ls gs : Nat) :
    (stepEvents es ls gs).countP TrainEvent.isBackward = 1 := by
  simp only [stepEvents, List.countP_append]
  split <;> split <;> rfl

theorem countP_stepEvents_isOptStep (es ls gs : Nat) :
    (stepEvents es ls gs).countP TrainEvent.isOptStep = 1 := by
  simp only [stepEvents, List.countP_append]
  split <;> split <;> rfl

theorem countP_stepEvents_isZeroGrad (es ls gs : Nat) :
    (stepEvents es ls gs).countP TrainEvent.isZeroGrad = 1 := by
  simp only [stepEvents, List.countP_append]
  split <;> split <;> rfl

theorem countP_stepEvents_isGradClip (es ls gs : Nat) :
    (stepEvents es ls gs).countP TrainEvent.isGradClip = 0 := by
  simp only [stepEvents, List.countP_append]
  split <;> split <;> rfl

theorem countP_stepEvents_isEarlyStop (es ls gs : Nat) :
    (stepEvents es ls gs).countP TrainEvent.isEarlyStop = 0 := by
  simp only [stepEvents, List.countP_append]
  split <;> split <;> rfl

theorem countP_batchTrace (es ls : Nat) (p : TrainEvent → Bool) (c : Nat)
    (hp : ∀ gs, (stepEvents es ls gs).countP p = c) :
    ∀ n gs, (batchTrace es ls gs n).countP p = c * n := by
  intro n
  induction n with
  | zero => intro gs; simp [batchTrace]
  | succ n ih =>
    intro gs
    simp only [batchTrace, List.countP_append, hp, ih]
    ring

theorem evalRun_mem_stepEvents (es ls gs s : Nat) :
    TrainEvent.evalRun s ∈ stepEvents es ls gs ↔ s = gs ∧ gs % es = 0 := by
  by_cases h1 : gs % es = 0 <;> by_cases h2 : gs % ls = 0 <;>
    simp [stepEvents, h1, h2]

theorem logLoss_mem_stepEvents (es ls gs s : Nat) :
    TrainEvent.logLoss s ∈ stepEvents es ls gs ↔ s = gs ∧ gs % ls = 0 := by
  by_cases h1 : gs % es = 0 <;> by_cases h2 : gs % ls = 0 <;>
    simp [stepEvents, h1, h2]

theorem evalRun_mem_batchTrace (es ls : Nat) :
    ∀ n gs s, (TrainEvent.evalRun s ∈ batchTrace es ls gs n
      ↔ gs + 1 ≤ s ∧ s ≤ gs + n ∧ s % es = 0) := by
  intro n
  induction n with
  | zero => intro gs s; simp [batchTrace]; omega
  | succ n ih =>
    intro gs s
    simp only [batchTrace, List.mem_append, evalRun_mem_stepEvents, ih]
    constructor
    · rintro (⟨rfl, h⟩ | ⟨h1, h2, h3⟩)
      · exact ⟨by omega, by omega, h⟩
      · exact ⟨by omega, by omega, h3⟩
    · rintro ⟨h1, h2, h3⟩
      rcases Nat.eq_or_lt_of_le h1 with h | h
      · exact Or.inl ⟨h.symm, h ▸ h3⟩
      · exact Or.inr ⟨by omega, by omega, h3⟩

theorem logLoss_mem_batchTrace (es ls : Nat) :
    ∀ n gs s, (TrainEvent.logLoss s ∈ batchTrace es ls gs n
      ↔ gs + 1 ≤ s ∧ s ≤ gs + n ∧ s % ls = 0) := by
  intro n
  induction n with
  | zero => intro gs s; simp [batchTrace]; omega
  | succ n ih =>
    intro gs s
    simp only [batchTrace, List.mem_append, logLoss_mem_stepEvents, ih]
    constructor
    · rintro (⟨rfl, h⟩ | ⟨h1, h2, h3⟩)
      · exact ⟨by omega, by omega, h⟩
      · exact ⟨by omega, by omega, h3⟩
    · rintro ⟨h1, h2, h3⟩
      rcases Nat.eq_or_lt_of_le h1 with h | h
      · exact Or.inl ⟨h.symm, h ▸ h3⟩
      · exact Or.inr ⟨by omega, by omega, h3⟩

theorem runBatches_fail (es ls gs n : Nat) (hn : 1 ≤ n) :
    runBatches false es ls gs n = ⟨gs + 1, [], some .typeError⟩ := by
  obtain ⟨m, rfl⟩ : ∃ m, n = m + 1 := ⟨n - 1, by omega⟩
  simp [runBatches]

theorem runEpochs_fail (es ls n gs e : Nat) (he : 1 ≤ e) (hn : 1 ≤ n) :
    runEpochs false es ls n gs e = ⟨gs + 1, [], some .typeError⟩ := by
  obtain ⟨f, rfl⟩ : ∃ f, e = f + 1 := ⟨e - 1, by omega⟩
  simp [runEpochs, runBatches_fail es ls gs n hn]

/-- C1: the legacy training loop (src/trainer.py `train`) performs one
optimizer step per batch, with no gradient accumulation, no gradient
clipping and no early stopping: over `epochs` epochs of `nBatches`
batches each, provided the supplied loss function accepts the loop's
keyword call, the run completes without error, every consumed batch
contributes exactly one backward pass, one optimizer step and one
gradient clearing, the global step counter ends at `epochs * nBatches`
(one increment per batch), no clipping or early-stopping action ever
occurs, and evaluation (resp. loss logging) runs exactly at the global
steps that are multiples of `eval_steps` (resp. `logging_steps`). -/
theorem c1_legacy_train_loop (epochs eval_steps logging_steps nBatches : Nat)
    (loss_fn : PySignature)
    (hok : kwCallOk loss_fn lossCallKeywords = true)
    (_hes : 0 < eval_steps) (_hls : 0 < logging_steps) :
    (train epochs eval_steps logging_steps nBatches loss_fn).error = none ∧
    (train epochs eval_steps logging_steps nBatches loss_fn).globalStep
      = epochs * nBatches ∧
    (train epochs eval_steps logging_steps nBatches loss_fn).events.countP
      TrainEvent.isBackward = epochs * nBatches ∧
    (train epochs eval_steps logging_steps nBatches loss_fn).events.countP
      TrainEvent.isOptStep = epochs * nBatches ∧
    (train epochs eval_steps logging_steps nBatches loss_fn).events.countP
      TrainEvent.isZeroGrad = epochs * nBatches ∧
    (train epochs eval_steps logging_steps nBatches loss_fn).events.countP
      TrainEvent.isGradClip = 0 ∧
    (train epochs eval_steps logging_steps nBatches loss_fn).events.countP
      TrainEvent.isEarlyStop = 0 ∧
    (∀ s, TrainEvent.evalRun s
        ∈ (train epochs eval_steps logging_steps nBatches loss_fn).events
      ↔ 1 ≤ s ∧ s ≤ epochs * nBatches ∧ s % eval_steps = 0) ∧
    (∀ s, TrainEvent.logLoss s
        ∈ (train epochs eval_steps logging_steps nBatches loss_fn).events
      ↔ 1 ≤ s ∧ s ≤ epochs * nBatches ∧ s % logging_steps = 0) := by
  have htr : train epochs eval_steps logging_steps nBatches loss_fn
      = ⟨epochs * nBatches,
         batchTrace eval_steps logging_steps 0 (epochs * nBatches), none⟩ := by
    unfold train
    rw [hok, runEpochs_ok]
    simp
  rw [htr]
  refine ⟨rfl, rfl, ?_, ?_, ?_, ?_, ?_, ?_, ?_⟩
  · rw [countP_batchTrace eval_steps logging_steps TrainEvent.isBackward 1
      (countP_stepEvents_isBackward eval_steps logging_steps), one_mul]
  · rw [countP_batchTrace eval_steps logging_steps TrainEvent.isOptStep 1
      (countP_stepEvents_isOptStep eval_steps logging_steps), one_mul]
  · rw [countP_batchTrace eval_steps logging_steps TrainEvent.isZeroGrad 1
      (countP_stepEvents_isZeroGrad eval_steps logging_steps), one_mul]
  · rw [countP_batchTrace eval_steps logging_steps TrainEvent.isGradClip 0
      (countP_stepEvents_isGradClip eval_steps logging_steps), zero_mul]
  · rw [countP_batchTrace eval_steps logging_steps TrainEvent.isEarlyStop 0
      (countP_stepEvents_isEarlyStop eval_steps logging_steps), zero_mul]
  · intro s
    rw [evalRun_mem_batchTrace]
    omega
  · intro s
    rw [logLoss_mem_batchTrace]
    omega

/-- Witness for C1: the hypotheses hold at `epochs = 2`,
`eval_steps = 2`, `logging_steps = 3`, `nBatches = 3` with torch's
`binary_cross_entropy_with_logits` supplied as the loss function. -/
theorem c1_legacy_train_loop_witness :
    kwCallOk bceWithLogitsSignature lossCallKeywords = true ∧
    0 < 2 ∧ 0 < 3 ∧
    ((train 2 2 3 3 bceWithLogitsSignature).error = none ∧
     (train 2 2 3 3 bceWithLogitsSignature).globalStep = 2 * 3 ∧
     (train 2 2 3 3 bceWithLogitsSignature).events.countP
       TrainEvent.isBackward = 2 * 3 ∧
     (train 2 2 3 3 bceWithLogitsSignature).events.countP
       TrainEvent.isOptStep = 2 * 3 ∧
     (train 2 2 3 3 bceWithLogitsSignature).events.countP
       TrainEvent.isZeroGrad = 2 * 3 ∧
     (train 2 2 3 3 bceWithLogitsSignature).events.countP
       TrainEvent.isGradClip = 0 ∧
     (train 2 2 3 3 bceWithLogitsSignature).events.countP
       TrainEvent.isEarlyStop = 0 ∧
     (∀ s, TrainEvent.evalRun s ∈ (train 2 2 3 3 bceWithLogitsSignature).events
       ↔ 1 ≤ s ∧ s ≤ 2 * 3 ∧ s % 2 = 0) ∧
     (∀ s, TrainEvent.logLoss s ∈ (train 2 2 3 3 bceWithLogitsSignature).events
       ↔ 1 ≤ s ∧ s ≤ 2 * 3 ∧ s % 3 = 0)) :=
  ⟨by decide, by decide, by decide,
    c1_legacy_train_loop 2 2 3 3 bceWithLogitsSignature (by decide)
      (by decide) (by decide)⟩

/-- C8: the legacy fine-tuning entry point
(src/finetuning/run_finetuning.py) calls `train` with the keyword
`loss_logging_steps`, which is not a parameter of `train`
(src/trainer.py accepts `logging_steps`), so every invocation that
reaches the `train` call raises `TypeError` before any batch is
processed: the run ends with `global_step = 0`, no events, and a
`TypeError`. -/
theorem c8_legacy_entrypoint_type_error
    (epochs eval_steps logging_steps nBatches : Nat) :
    "loss_logging_steps" ∉ trainSignature.params ∧
    kwCallOk trainSignature legacyTrainCallKeywords = false ∧
    legacy_finetuning_main epochs eval_steps logging_steps nBatches
      = ⟨0, [], some PyError.typeError⟩ := by
  refine ⟨by decide, by decide, ?_⟩
  unfold legacy_finetuning_main
  rw [show kwCallOk trainSignature legacyTrainCallKeywords = false by decide]
  simp

/-- C9: the legacy loop invokes `loss_fn` with an extra `reduction`
keyword that `default_loss_function` does not accept, so calling `train`
with its default loss function raises `TypeError` on the first batch of
the first epoch: `global_step` is incremented once and then the run
aborts with no backward pass and no optimizer step. -/
theorem c9_default_loss_type_error
    (epochs eval_steps logging_steps nBatches : Nat)
    (he : 1 ≤ epochs) (hn : 1 ≤ nBatches) :
    "reduction" ∈ lossCallKeywords ∧
    "reduction" ∉ default_loss_function.params ∧
    kwCallOk default_loss_function lossCallKeywords = false ∧
    train epochs eval_steps logging_steps nBatches
      = ⟨1, [], some PyError.typeError⟩ ∧
    (train epochs eval_steps logging_steps nBatches).events.countP
      TrainEvent.isOptStep = 0 := by
  have htr : train epochs eval_steps logging_steps nBatches
      = ⟨1, [], some PyError.typeError⟩ := by
    unfold train
    rw [show kwCallOk default_loss_function lossCallKeywords = false by decide]
    rw [runEpochs_fail eval_steps logging_steps nBatches 0 epochs he hn]
  exact ⟨by decide, by decide, by decide, htr, by rw [htr]; rfl⟩

/-- Witness for C9: the hypotheses hold at `epochs = 1`,
`eval_steps = 5`, `logging_steps = 7`, `nBatches = 4`. -/
theorem c9_default_loss_type_error_witness :
    (1 : Nat) ≤ 1 ∧ (1 : Nat) ≤ 4 ∧
    ("reduction" ∈ lossCallKeywords ∧
     "reduction" ∉ default_loss_function.params ∧
     kwCallOk default_loss_function lossCallKeywords = false ∧
     train 1 5 7 4 = ⟨1, [], some PyError.typeError⟩ ∧
     (train 1 5 7 4).events.countP TrainEvent.isOptStep = 0) :=
  ⟨by decide, by decide,
    c9_default_loss_type_error 1 5 7 4 (by decide) (by decide)⟩

/-- C2: the full-pretraining workflow's `epoch_steps` is the ceiling of
`len(train_dataset) / per_device_train_batch_size /
gradient_accumulation_steps`, while the fine-tuning workflow's
`epoch_steps` is the floor of the same quantity (Python's chained `//`
equals the floor of the exact division by the product). -/
theorem c2_epoch_steps_ceil_vs_floor (n batchSize gradAccum : Nat) :
    pretrainingEpochSteps n batchSize gradAccum
      = ⌈(n : ℚ) / ((batchSize * gradAccum : Nat) : ℚ)⌉₊ ∧
    finetuningEpochSteps n batchSize gradAccum
      = ⌊(n : ℚ) / ((batchSize * gradAccum : Nat) : ℚ)⌋₊ := by
  constructor
  · unfold pretrainingEpochSteps
    rw [div_div, ← Nat.cast_mul]
  · unfold finetuningEpochSteps
    rw [Nat.div_div_eq_div_mul]
    exact (Nat.floor_div_eq_div n (batchSize * gradAccum)).symm

/-! ## Lemmas about Python string splitting -/

theorem pySplit_ne_nil (sep : Char) (cs : List Char) :
    pySplit sep cs ≠ [] := by
  cases cs with
  | nil => simp [pySplit]
  | cons c cs =>
    simp only [pySplit]
    split
    · simp
    · split <;> simp

theorem length_pySplit (sep : Char) (cs : List Char) :
    (pySplit sep cs).length = cs.count sep + 1 := by
  induction cs with
  | nil => rfl
  | cons c cs ih =>
    by_cases h : c = sep
    · subst h
      have h1 : pySplit c (c :: cs) = [] :: pySplit c cs := by
        simp [pySplit]
      have h2 : (c :: cs).count c = cs.count c + 1 := List.count_cons_self c cs
      rw [h1, List.length_cons, h2]
      omega
    · cases hr : pySplit sep cs with
      | nil => exact absurd hr (pySplit_ne_nil sep cs)
      | cons g gs =>
        have h' : sep ≠ c := fun hh => h hh.symm
        have h1 : pySplit sep (c :: cs) = (c :: g) :: gs := by
          simp only [pySplit, if_neg h, hr]
        have h2 : (c :: cs).count sep = cs.count sep :=
          List.count_cons_of_ne h' cs
        rw [hr] at ih
        simp only [List.length_cons] at ih
        rw [h1, List.length_cons, h2]
        omega

theorem pySplit_of_not_mem {sep : Char} {cs : List Char} (h : sep ∉ cs) :
    pySplit sep cs = [cs] := by
  induction cs with
  | nil => rfl
  | cons c cs ih =>
    simp only [List.mem_cons, not_or] at h
    have hc : ¬c = sep := fun hh => h.1 hh.symm
    simp only [pySplit, if_neg hc, ih h.2]

theorem lastPiece_of_not_mem {sep : Char} {cs : List Char} (h : sep ∉ cs) :
    lastPiece sep cs = cs := by
  rw [lastPiece, pySplit_of_not_mem h]
  rfl

theorem lastPiece_cons (sep c : Char) (cs : List Char) :
    lastPiece sep (c :: cs)
      = if sep ∈ c :: cs then lastPiece sep cs else c :: cs := by
  obtain ⟨g, gs, hr⟩ : ∃ g gs, pySplit sep cs = g :: gs := by
    cases hr : pySplit sep cs with
    | nil => exact absurd hr (pySplit_ne_nil sep cs)
    | cons g gs => exact ⟨g, gs, rfl⟩
  by_cases hc : c = sep
  · subst hc
    have hcs : pySplit c (c :: cs) = [] :: g :: gs := by
      simp [pySplit, hr]
    rw [lastPiece, hcs, if_pos (List.mem_cons.mpr (Or.inl rfl)), lastPiece, hr]
    simp [List.getLastD_cons]
  · have hcs : pySplit sep (c :: cs) = (c :: g) :: gs := by
      simp only [pySplit, if_neg hc, hr]
    cases gs with
    | nil =>
      have hnm : sep ∉ cs := by
        intro hmem
        have := length_pySplit sep cs
        rw [hr] at this
        simp only [List.length_singleton] at this
        have hpos : 0 < cs.count sep := List.count_pos_iff.mpr hmem
        omega
      have hg : g = cs := by
        have := pySplit_of_not_mem hnm
        rw [hr] at this
        exact (List.cons.injEq _ _ _ _ ▸ this).1
      subst hg
      rw [lastPiece, hcs]
      rw [if_neg (by
        simp only [List.mem_cons, not_or]
        exact ⟨fun hh => hc hh.symm, hnm⟩)]
      rfl
    | cons g2 gs2 =>
      have hmem : sep ∈ cs := by
        have := length_pySplit sep cs
        rw [hr] at this
        simp only [List.length_cons] at this
        have : 0 < cs.count sep := by omega
        exact List.count_pos_iff.mp this
      rw [lastPiece, hcs, if_pos (by simp [hmem])]
      rw [lastPiece, hr]
      simp [List.getLastD_cons]

theorem lastPiece_append {sep : Char} (xs : List Char) {zs : List Char}
    (h : sep ∉ zs) :
    lastPiece sep (xs ++ zs) = lastPiece sep xs ++ zs := by
  induction xs with
  | nil =>
    rw [List.nil_append, lastPiece_of_not_mem h]
    rfl
  | cons c xs ih =>
    rw [List.cons_append, lastPiece_cons, lastPiece_cons]
    by_cases hm : sep ∈ c :: xs
    · have : sep ∈ c :: (xs ++ zs) := by
        rcases List.mem_cons.mp hm with h1 | h1
        · exact List.mem_cons.mpr (Or.inl h1)
        · exact List.mem_cons.mpr (Or.inr (List.mem_append.mpr (Or.inl h1)))
      rw [if_pos this, if_pos hm, ih]
    · have : sep ∉ c :: (xs ++ zs) := by
        intro hmem
        rcases List.mem_cons.mp hmem with h1 | h1
        · exact hm (List.mem_cons.mpr (Or.inl h1))
        · rcases List.mem_append.mp h1 with h2 | h2
          · exact hm (List.mem_cons.mpr (Or.inr h2))
          · exact h h2
      rw [if_neg this, if_neg hm]
      simp

theorem lastPiece_append_single (sep : Char) (xs : List Char) :
    lastPiece sep (xs ++ [sep]) = [] := by
  induction xs with
  | nil =>
    simp [lastPiece, pySplit]
  | cons c xs ih =>
    rw [List.cons_append, lastPiece_cons,
      if_pos (List.mem_cons.mpr (Or.inr (List.mem_append.mpr
        (Or.inr (List.mem_singleton.mpr rfl))))), ih]

theorem lastPiece_append_suffix {sep : Char} (xs : List Char)
    {zs : List Char} (h : sep ∉ zs) :
    lastPiece sep (xs ++ sep :: zs) = zs := by
  have : xs ++ sep :: zs = (xs ++ [sep]) ++ zs := by simp
  rw [this, lastPiece_append _ h, lastPiece_append_single]
  rfl

/-! ## Lemmas about the checkpoint-evaluation loop -/

theorem evalLoop_ok (stepStr : List Char) (k : Int)
    (h : pyInt stepStr = some k) (pairs : List (List Char × List Char)) :
    evalLoop stepStr pairs
      = (pairs.flatMap (fun p =>
          [EvalEvent.evaluated p.1 p.2, EvalEvent.loggedMetrics p.1 k]),
         none) := by
  induction pairs with
  | nil => rfl
  | cons p ps ih =>
    obtain ⟨name, path⟩ := p
    simp only [evalLoop, h, List.flatMap_cons, ih]
    simp

theorem pyInt_digits {digits : List Char} (hne : digits ≠ [])
    (hdig : digits.all Char.isDigit = true) (hm : '-' ∉ digits) :
    pyInt digits = some ((digitsToNat digits : Int)) := by
  rcases digits with _ | ⟨c, cs⟩
  · exact absurd rfl hne
  · have hc : c ≠ '-' := by
      intro hh
      exact hm (hh ▸ List.mem_cons_self c cs)
    rw [pyInt.eq_def]
    split
    · rename_i rest heq
      exact absurd (List.cons.injEq _ _ _ _ ▸ heq).1 hc
    · rw [if_pos ⟨hne, hdig⟩]

/-- C3: in the checkpoint-evaluation workflow, for every checkpoint path
whose final `/`-separated segment ends in a trailing `-<integer>` suffix
(a nonempty run of digits containing no `-` and no `/`), the run raises
no error and every per-dataset metrics record is logged with `step`
equal to that integer — the text after the last `-` of the last
`/`-separated path segment, converted to an integer. -/
theorem c3_checkpoint_step_logging (pre digits : List Char)
    (names paths : List (List Char))
    (hne : digits ≠ []) (hdig : digits.all Char.isDigit = true)
    (hm : '-' ∉ digits) (hs : '/' ∉ digits) :
    checkpointStepOf (pre ++ '-' :: digits) = digits ∧
    (run_evaluation_main (pre ++ '-' :: digits) names paths).2 = none ∧
    ∀ name k, EvalEvent.loggedMetrics name k
        ∈ (run_evaluation_main (pre ++ '-' :: digits) names paths).1
      → k = (digitsToNat digits : Int) := by
  have hstep : checkpointStepOf (pre ++ '-' :: digits) = digits := by
    unfold checkpointStepOf
    have h1 : ('/' : Char) ∉ '-' :: digits := by
      intro hh
      rcases List.mem_cons.mp hh with h2 | h2
      · exact absurd h2 (by decide)
      · exact hs h2
    rw [lastPiece_append pre h1, lastPiece_append_suffix _ hm]
  have hint : pyInt digits = some ((digitsToNat digits : Int)) :=
    pyInt_digits hne hdig hm
  have hrun : run_evaluation_main (pre ++ '-' :: digits) names paths
      = ((names.zip paths).flatMap (fun p =>
          [EvalEvent.evaluated p.1 p.2,
           EvalEvent.loggedMetrics p.1 (digitsToNat digits)]), none) := by
    unfold run_evaluation_main
    rw [hstep, evalLoop_ok digits (digitsToNat digits) hint]
  refine ⟨hstep, by rw [hrun], ?_⟩
  intro name k hk
  rw [hrun] at hk
  simp only [List.mem_flatMap, List.mem_cons, List.mem_singleton] at hk
  obtain ⟨p, _, hp | hp | hp⟩ := hk
  · exact absurd hp (by simp)
  · exact (EvalEvent.loggedMetrics.injEq _ _ _ _ ▸ hp).2
  · exact absurd hp (by simp)

/-- Witness for C3: the hypotheses hold for the checkpoint path
`runs/bert/checkpoint-500` (`pre = "runs/bert/checkpoint"`,
`digits = "500"`) with one dataset name/path pair. -/
theorem c3_checkpoint_step_logging_witness :
    (['5', '0', '0'] : List Char) ≠ [] ∧
    (['5', '0', '0'] : List Char).all Char.isDigit = true ∧
    ('-' : Char) ∉ (['5', '0', '0'] : List Char) ∧
    ('/' : Char) ∉ (['5', '0', '0'] : List Char) ∧
    (checkpointStepOf
        (['r', 'u', 'n', 's', '/', 'b', 'e', 'r', 't', '/', 'c', 'h', 'e',
          'c', 'k', 'p', 'o', 'i', 'n', 't'] ++ '-' :: ['5', '0', '0'])
      = ['5', '0', '0'] ∧
     (run_evaluation_main
        (['r', 'u', 'n', 's', '/', 'b', 'e', 'r', 't', '/', 'c', 'h', 'e',
          'c', 'k', 'p', 'o', 'i', 'n', 't'] ++ '-' :: ['5', '0', '0'])
        [['t', 'o', 'x', 'i', 'c']] [['a', '.', 'c', 's', 'v']]).2 = none ∧
     ∀ name k, EvalEvent.loggedMetrics name k
         ∈ (run_evaluation_main
            (['r', 'u', 'n', 's', '/', 'b', 'e', 'r', 't', '/', 'c', 'h',
              'e', 'c', 'k', 'p', 'o', 'i', 'n', 't'] ++ '-' :: ['5', '0', '0'])
            [['t', 'o', 'x', 'i', 'c']] [['a', '.', 'c', 's', 'v']]).1
       → k = (digitsToNat ['5', '0', '0'] : Int)) :=
  ⟨by decide, by decide, by decide, by decide,
    c3_checkpoint_step_logging
      ['r', 'u', 'n', 's', '/', 'b', 'e', 'r', 't', '/', 'c', 'h', 'e', 'c',
       'k', 'p', 'o', 'i', 'n', 't'] ['5', '0', '0']
      [['t', 'o', 'x', 'i', 'c']] [['a', '.', 'c', 's', 'v']]
      (by decide) (by decide) (by decide) (by decide)⟩

/-- C10: when `--dataset_names` and `--dataset_paths` have different
lengths, the checkpoint-evaluation workflow evaluates exactly the first
`min(len(dataset_names), len(dataset_paths))` name/path pairs, pairing
them positionally in order, and silently ignores the surplus entries
without raising any error (given a checkpoint whose step suffix parses,
so the loop itself cannot raise). -/
theorem c10_zip_truncation (checkpoint : List Char)
    (names paths : List (List Char)) (k : Int)
    (hk : pyInt (checkpointStepOf checkpoint) = some k) :
    (run_evaluation_main checkpoint names paths).2 = none ∧
    (run_evaluation_main checkpoint names paths).1.filterMap
      EvalEvent.evaluatedPair = names.zip paths ∧
    (names.zip paths).length = min names.length paths.length ∧
    ∀ i, ∀ h1 : i < names.length, ∀ h2 : i < paths.length,
      EvalEvent.evaluated (names.get ⟨i, h1⟩) (paths.get ⟨i, h2⟩)
        ∈ (run_evaluation_main checkpoint names paths).1 := by
  have hrun : run_evaluation_main checkpoint names paths
      = ((names.zip paths).flatMap (fun p =>
          [EvalEvent.evaluated p.1 p.2, EvalEvent.loggedMetrics p.1 k]),
         none) := by
    unfold run_evaluation_main
    rw [evalLoop_ok _ k hk]
  refine ⟨by rw [hrun], ?_, List.length_zip names paths, ?_⟩
  · rw [hrun]
    generalize names.zip paths = pairs
    induction pairs with
    | nil => rfl
    | cons p ps ih =>
      simp only [List.flatMap_cons, List.filterMap_append, ih]
      rfl
  · intro i h1 h2
    rw [hrun]
    have hlen : i < (names.zip paths).length := by
      rw [List.length_zip]
      omega
    have hget : (names.zip paths).get ⟨i, hlen⟩
        = (names.get ⟨i, h1⟩, paths.get ⟨i, h2⟩) := List.get_zip
    have hmem : (names.get ⟨i, h1⟩, paths.get ⟨i, h2⟩) ∈ names.zip paths := by
      rw [← hget]
      exact List.get_mem _ _ _
    simp only [List.mem_flatMap]
    exact ⟨_, hmem, List.mem_cons.mpr (Or.inl rfl)⟩

/-- Witness for C10: the hypothesis holds for checkpoint `ckpt-7` with
two dataset names and one dataset path (the surplus name is ignored). -/
theorem c10_zip_truncation_witness :
    pyInt (checkpointStepOf ['c', 'k', 'p', 't', '-', '7']) = some 7 ∧
    ((run_evaluation_main ['c', 'k', 'p', 't', '-', '7']
        [['a'], ['b']] [['p']]).2 = none ∧
     (run_evaluation_main ['c', 'k', 'p', 't', '-', '7']
        [['a'], ['b']] [['p']]).1.filterMap EvalEvent.evaluatedPair
       = ([['a'], ['b']] : List (List Char)).zip [['p']] ∧
     (([['a'], ['b']] : List (List Char)).zip [['p']]).length
       = min ([['a'], ['b']] : List (List Char)).length
           ([['p']] : List (List Char)).length ∧
     ∀ i, ∀ h1 : i < ([['a'], ['b']] : List (List Char)).length,
       ∀ h2 : i < ([['p']] : List (List Char)).length,
       EvalEvent.evaluated (([['a'], ['b']] : List (List Char)).get ⟨i, h1⟩)
           (([['p']] : List (List Char)).get ⟨i, h2⟩)
         ∈ (run_evaluation_main ['c', 'k', 'p', 't', '-', '7']
            [['a'], ['b']] [['p']]).1) :=
  ⟨by decide,
    c10_zip_truncation ['c', 'k', 'p', 't', '-', '7'] [['a'], ['b']] [['p']] 7
      (by decide)⟩

/-! ## Lemmas about the legacy validation routine -/

theorem validation_length (bl : List (List (List ℚ))) :
    (validation bl).length = 2 * bl.length := by
  induction bl with
  | nil => rfl
  | cons l bs ih =>
    simp only [validation, List.flatMap_cons] at ih ⊢
    simp only [List.length_append, ih, List.length_cons, List.length_nil]
    omega

theorem validation_countP_argmax (bl : List (List (List ℚ))) :
    (validation bl).countP ValEvent.isArgmaxCall = bl.length := by
  induction bl with
  | nil => rfl
  | cons l bs ih =>
    simp only [validation, List.flatMap_cons] at ih ⊢
    simp [List.countP_append, ih, List.countP_cons, List.countP_nil,
      List.length_cons, ValEvent.isArgmaxCall]

theorem validation_countP_f1 (bl : List (List (List ℚ))) :
    (validation bl).countP ValEvent.isF1AddCall = bl.length := by
  induction bl with
  | nil => rfl
  | cons l bs ih =>
    simp only [validation, List.flatMap_cons] at ih ⊢
    simp [List.countP_append, ih, List.countP_cons, List.countP_nil,
      List.length_cons, ValEvent.isF1AddCall]

/-- C7: for every batch of the evaluation set, the legacy `validation`
routine performs exactly one predicted-class computation via
`torch.argmax` with no dimension parameter — reducing the flattened
logits to a single index — and exactly one call to the F1 metric
accumulator that supplies none of the prediction/reference inputs the
accumulator requires. -/
theorem c7_validation_routine (batchLogits : List (List (List ℚ))) :
    (validation batchLogits).length = 2 * batchLogits.length ∧
    (validation batchLogits).countP ValEvent.isArgmaxCall
      = batchLogits.length ∧
    (validation batchLogits).countP ValEvent.isF1AddCall
      = batchLogits.length ∧
    (∀ d r, ValEvent.argmaxCall d r ∈ validation batchLogits → d = none) ∧
    (∀ logits, logits ∈ batchLogits →
      ValEvent.argmaxCall none (argmaxList logits.flatten)
        ∈ validation batchLogits) ∧
    (∀ kws, ValEvent.f1AddCall kws ∈ validation batchLogits →
      kws = [] ∧ ∀ k, k ∈ f1AddRequiredInputs → k ∉ kws) := by
  refine ⟨validation_length batchLogits, validation_countP_argmax batchLogits,
    validation_countP_f1 batchLogits, ?_, ?_, ?_⟩
  · intro d r hmem
    simp only [validation, List.mem_flatMap, List.mem_cons] at hmem
    obtain ⟨l, _, h⟩ := hmem
    simp at h
    exact h.1
  · intro logits hmem
    simp only [validation, List.mem_flatMap]
    exact ⟨logits, hmem, by simp [torchArgmaxFlat]⟩
  · intro kws hmem
    simp only [validation, List.mem_flatMap, List.mem_cons] at hmem
    obtain ⟨l, _, h⟩ := hmem
    simp at h
    subst h
    exact ⟨rfl, fun k _ => List.not_mem_nil k⟩

/-! ## Claims about the workflow traces -/

/-- Counterexample for C4: the checkpoint-evaluation workflow offers no
way to leave the tracking service unconfigured — its `main` calls
`mlflow.set_tracking_uri` and `mlflow.start_run` unconditionally (the
tracking URI merely has a default value), so even an invocation with no
datasets and nothing tracking-related supplied performs tracking calls
instead of skipping them. -/
theorem c4_evaluation_tracking_unconditional :
    WfEvent.startRun ∈ runEvaluationWorkflow [] ∧
    WfEvent.endRun ∈ runEvaluationWorkflow [] ∧
    (runEvaluationWorkflow []).filter WfEvent.isTrackingCall ≠ [] := by
  decide

/-- C4 (amended): tracking-service integration is optional in the
fine-tuning, full-pretraining and adapter-pretraining workflows — when
no tracking service is configured they issue no tracking call, and when
it is configured the run is started before training and ended at
completion; the checkpoint-evaluation workflow instead always starts a
tracking run at startup and ends it at completion, and the legacy
fine-tuning workflow never makes tracking calls. -/
theorem c4_tracking_optionality_amended (uf hf up hp ua : Bool)
    (me : Option String) (datasets : List (List Char × List Char)) :
    (((runFinetuningWorkflow uf hf).takeWhile
        (fun e => !(e == WfEvent.trainRun))).filter WfEvent.isTrackingCall
      = if hf then [.setTrackingUri, .setExperiment, .startRun, .logDict]
        else []) ∧
    (((runFinetuningWorkflow uf hf).dropWhile
        (fun e => !(e == WfEvent.trainRun))).filter WfEvent.isTrackingCall
      = if hf then [.endRun] else []) ∧
    (((runPretrainingWorkflow up hp).takeWhile
        (fun e => !(e == WfEvent.trainRun))).filter WfEvent.isTrackingCall
      = if hp then [.setTrackingUri, .setExperiment, .startRun, .logParams,
                    .setTags] else []) ∧
    (((runPretrainingWorkflow up hp).dropWhile
        (fun e => !(e == WfEvent.trainRun))).filter WfEvent.isTrackingCall
      = if hp then [.endRun] else []) ∧
    (((runAdapterPretrainingWorkflow ua me).takeWhile
        (fun e => !(e == WfEvent.trainRun))).filter WfEvent.isTrackingCall
      = if pyTruthy me then [.setTrackingUri, .setExperiment, .startRun,
                             .logParams] else []) ∧
    (((runAdapterPretrainingWorkflow ua me).dropWhile
        (fun e => !(e == WfEvent.trainRun))).filter WfEvent.isTrackingCall
      = if pyTruthy me then [.endRun] else []) ∧
    ((runEvaluationWorkflow datasets).take 2
      = [.setTrackingUri, .startRun]) ∧
    ((runEvaluationWorkflow datasets).getLast? = some .endRun) ∧
    (runLegacyFinetuningWorkflow.filter WfEvent.isTrackingCall = []) := by
  have hgl : (runEvaluationWorkflow datasets).getLast? = some .endRun := by
    unfold runEvaluationWorkflow
    rw [List.getLast?_append, List.getLast?_append]
    rfl
  refine ⟨?_, ?_, ?_, ?_, ?_, ?_, ?_, hgl, by decide⟩
  · cases uf <;> cases hf <;> decide
  · cases uf <;> cases hf <;> decide
  · cases up <;> cases hp <;> decide
  · cases up <;> cases hp <;> decide
  · cases hme : pyTruthy me <;>
      cases ua <;> simp [runAdapterPretrainingWorkflow, hme] <;> decide
  · cases hme : pyTruthy me <;>
      cases ua <;> simp [runAdapterPretrainingWorkflow, hme] <;> decide
  · cases datasets <;> rfl

/-- Counterexample for C5: the legacy fine-tuning workflow
(src/finetuning/run_finetuning.py) calls `torch.compile(model)`
unconditionally — its command line has no compilation flag, so the model
is graph-compiled even though no configuration requested it. -/
theorem c5_legacy_always_compiles :
    WfEvent.compileModel ∈ runLegacyFinetuningWorkflow := by
  decide

/-- C5 (amended): the hydra fine-tuning, full-pretraining and
adapter-pretraining workflows compile the model exactly when
`use_torch_compile` is set; the checkpoint-evaluation workflow never
compiles the model (the call was removed); the legacy fine-tuning
workflow always compiles it, regardless of configuration. -/
theorem c5_compile_gating_amended (uf hf up hp ua : Bool)
    (me : Option String) (datasets : List (List Char × List Char)) :
    (WfEvent.compileModel ∈ runFinetuningWorkflow uf hf ↔ uf = true) ∧
    (WfEvent.compileModel ∈ runPretrainingWorkflow up hp ↔ up = true) ∧
    (WfEvent.compileModel ∈ runAdapterPretrainingWorkflow ua me
      ↔ ua = true) ∧
    WfEvent.compileModel ∉ runEvaluationWorkflow datasets ∧
    WfEvent.compileModel ∈ runLegacyFinetuningWorkflow := by
  refine ⟨?_, ?_, ?_, ?_, by decide⟩
  · cases uf <;> cases hf <;> decide
  · cases up <;> cases hp <;> decide
  · cases hme : pyTruthy me <;> cases ua <;>
      simp [runAdapterPretrainingWorkflow, hme]
  · intro hmem
    simp only [runEvaluationWorkflow, List.mem_append, List.mem_cons,
      List.mem_singleton, List.mem_flatMap] at hmem
    rcases hmem with (h | h) | ⟨_, _, h⟩ | h <;> simp_all

/-! ## Claims about the argparse model-argument group -/

/-- Counterexample for C6: `add_model_args` registers
`--pretrained_model_name_or_path` without `required=True`, so a command
line that omits it parses successfully (yielding `None`), and the group
contains no caching option — it registers exactly one argument and none
named `--cache_dir`. -/
theorem c6_model_arg_not_required :
    parseSucceeds add_model_args [] = true ∧
    add_model_args.all (fun a => !a.required) = true ∧
    add_model_args.length = 1 ∧
    add_model_args.all
      (fun a => !(a.name == "--cache_dir")) = true := by
  decide

/-- C6 (amended): `add_model_args` registers
`--pretrained_model_name_or_path` as an optional (non-required) string
argument and registers no caching options; consequently argument parsing
succeeds on every command line as far as this group's required-argument
checking is concerned, including one that omits the flag. -/
theorem c6_add_model_args_amended (argv : List String) :
    parseSucceeds add_model_args argv = true ∧
    add_model_args.all
      (fun a => !a.required
        && (a.name == "--pretrained_model_name_or_path")) = true := by
  constructor
  · simp [parseSucceeds, add_model_args]
  · decide

end Masters
